import Mathlib

/-
Verification of the BillSense statement-ingestion and analytics core
(`src/main.ts`) against its natural-language specification.

Embedding conventions.  The TypeScript source is shallowly embedded:

* JS strings are Lean `String` (a list of characters; JS UTF-16 code-unit
  ordering and Lean's character ordering agree on the Basic Multilingual
  Plane, which covers every literal appearing in the program);
* JS numbers are idealised as exact rationals `ℚ` (the program only adds,
  divides, compares, rounds and takes absolute values);
* JS objects used as string-keyed dictionaries are insertion-ordered
  association lists with unique keys; the ECMAScript enumeration order of
  `Object.keys` / `Object.entries`, which lists canonical array-index keys
  first in ascending numeric order and all remaining keys in insertion
  order, is modelled by `jsEntries`;
* a function that can throw an exception is embedded with an `Option`
  result (`none` = an exception escapes to the caller); functions whose
  bodies cannot throw are embedded as total functions;
* `new Date().toISOString().split('T')[0]` (the current processing date)
  is passed in as an explicit `today : String` parameter.
-/

/-! ### JS string primitives used by the source -/

/-- `String.prototype.split` with a one-character separator, on character
lists: `"a,,b"` splits to `["a","","b"]`, `""` splits to `[""]`. -/
def splitOnChar (sep : Char) : List Char → List (List Char)
  | [] => [[]]
  | c :: cs =>
    let r := splitOnChar sep cs
    if c = sep then [] :: r
    else
      match r with
      | [] => [[c]]
      | g :: gs => (c :: g) :: gs

/-- `s.split(sep)` for a one-character separator. -/
def jsSplit (sep : Char) (s : String) : List String :=
  (splitOnChar sep s.data).map String.mk

/-- `s.trim()`.  JS trims Unicode whitespace; the model trims ASCII
whitespace, which is all that occurs in the embedded alphabet. -/
def jsTrim (s : String) : String :=
  String.mk (((s.data.dropWhile Char.isWhitespace).reverse.dropWhile
    Char.isWhitespace).reverse)

/-- `s.toLowerCase()` (ASCII case mapping). -/
def toLowerStr (s : String) : String :=
  String.mk (s.data.map Char.toLower)

/-- `t.includes(p)` on character lists: `p` occurs as a contiguous
substring of `t`. -/
def listContains (t p : List Char) : Bool :=
  (List.range (t.length + 1)).any (fun i => p.isPrefixOf (t.drop i))

/-- `t.includes(p)` for strings. -/
def strContains (t p : String) : Bool :=
  listContains t.data p.data

/-! ### JS numeric-string parsing (`parseFloat` after the source's strip) -/

/-- Decimal digits to a natural number (`'0'` has code 48). -/
def digitsToNat : List Char → Nat :=
  List.foldl (fun n c => 10 * n + (c.toNat - 48)) 0

/-- Value of a fractional digit string: `fracVal ['2','5'] = 1/4`. -/
def fracVal : List Char → ℚ :=
  List.foldr (fun c acc => (((c.toNat - 48 : ℕ) : ℚ) + acc) / 10) 0

/-- JS `parseFloat`, restricted to strings over the alphabet
`{0-9, '.', '-'}` — exactly the strings produced by the source's
`replace(/[^0-9.-]/g, '')`.  `parseFloat` reads an optional sign, then the
longest prefix of the form `digits`, `digits.digits`, `.digits` or
`digits.`; everything after that prefix is ignored.  `none` models `NaN`
(no digits consumed, e.g. `""`, `"-"`, `"."`, `"--5"`). -/
def jsParseFloat (s : String) : Option ℚ :=
  let (neg, cs) :=
    match s.data with
    | '-' :: rest => (true, rest)
    | cs => (false, cs)
  let ip := cs.takeWhile Char.isDigit
  let rest := cs.dropWhile Char.isDigit
  let signed : ℚ → ℚ := fun m => if neg then -m else m
  match rest with
  | '.' :: rest2 =>
    let fp := rest2.takeWhile Char.isDigit
    if ip.isEmpty && fp.isEmpty then none
    else some (signed ((digitsToNat ip : ℚ) + fracVal fp))
  | _ => if ip.isEmpty then none else some (signed (digitsToNat ip))

/-- The source's amount pipeline, shared verbatim by both parsers
(src/main.ts lines 76/86 and 137–143):
`Math.abs(parseFloat(cell.replace(/[^0-9.-]/g, '')))` with
`isNaN(amount) ? 0 : amount`. -/
def stripAmount (s : String) : String :=
  String.mk (s.data.filter (fun c => c.isDigit || c = '.' || c = '-'))

/-- Strip, parse, take the absolute value; `NaN` becomes `0`. -/
def jsAmount (s : String) : ℚ :=
  match jsParseFloat (stripAmount s) with
  | none => 0
  | some x => |x|

/-- JS `Math.round`: round half toward positive infinity. -/
def jsRound (q : ℚ) : ℤ := ⌊q + 1 / 2⌋

/-! ### Data model -/

/-- The `Transaction` interface (src/main.ts lines 11–17).  `description`
is optional: the spreadsheet parser does not set it. -/
structure Transaction where
  date : String
  merchant : String
  amount : ℚ
  category : String
  description : Option String
deriving DecidableEq, Repr

/-! ### Categorizer (src/main.ts lines 161–182) -/

/-- The static, ordered rule table `CATEGORY_RULES`. -/
def CATEGORY_RULES : List (String × List String) :=
  [("Dining", ["restaurant", "cafe", "coffee", "starbucks", "dinner",
     "lunch", "food", "grill", "bistro", "sakura"]),
   ("Groceries", ["grocery", "supermarket", "whole foods", "market",
     "trader"]),
   ("Transport", ["uber", "lyft", "gas", "fuel", "shell", "exxon", "ride",
     "taxi"]),
   ("Subscriptions", ["netflix", "spotify", "prime", "subscription",
     "membership", "gym", "fitness", "icloud"]),
   ("Shopping", ["amazon", "shop", "purchase", "store", "mall", "target",
     "walmart"]),
   ("Entertainment", ["movie", "cinema", "theater", "ticket", "game",
     "ppac"]),
   ("Utilities", ["electric", "water", "internet", "phone", "utility",
     "bill"]),
   ("Health", ["pharmacy", "doctor", "clinic", "medical", "hospital",
     "cvs"])]

/-- The `for (const rule of CATEGORY_RULES)` loop body: return the first
rule one of whose keywords occurs in `text`; fall through to `"Other"`. -/
def categorizeLoop (text : String) : List (String × List String) → String
  | [] => "Other"
  | rule :: rest =>
    if rule.2.any (fun keyword => strContains text keyword) then rule.1
    else categorizeLoop text rest

/-- `categorizeTransaction(description, merchant)`: lowercase the
space-joined text, then first-match over the rule table. -/
def categorizeTransaction (description merchant : String) : String :=
  categorizeLoop (toLowerStr (description ++ " " ++ merchant)) CATEGORY_RULES

/-! ### Delimited-text parser (src/main.ts lines 61–94)

`parseCSV` has no `try`/`catch`; the one expression in its body that can
throw is `values[amountIdx].replace(...)` when the row has no cell at
`amountIdx` (a `TypeError` on `undefined`).  The embedding therefore
returns `Option (List Transaction)`, `none` meaning the exception
escapes.  The source recomputes the four `findIndex` calls inside the row
loop; they only read the (loop-invariant) header list, so the embedding
computes them once. -/

/-- `content.split('\n').filter(line => line.trim())`. -/
def csvLines (content : String) : List String :=
  (jsSplit '\n' content).filter (fun l => decide (jsTrim l ≠ ""))

/-- `lines[0].toLowerCase().split(',').map(h => h.trim())`. -/
def csvHeaders (content : String) : List String :=
  (jsSplit ',' (toLowerStr ((csvLines content).headD ""))).map jsTrim

/-- `headers.findIndex(h => h.includes('date'))`; `none` models `-1`. -/
def csvDateIdx (content : String) : Option Nat :=
  (csvHeaders content).findIdx? (fun h => strContains h "date")

/-- `headers.findIndex(h => h.includes('merchant') ||
h.includes('description') || h.includes('name'))`. -/
def csvMerchantIdx (content : String) : Option Nat :=
  (csvHeaders content).findIdx? (fun h =>
    strContains h "merchant" || strContains h "description" ||
    strContains h "name")

/-- `headers.findIndex(h => h.includes('amount') || h.includes('price') ||
h.includes('total'))`. -/
def csvAmountIdx (content : String) : Option Nat :=
  (csvHeaders content).findIdx? (fun h =>
    strContains h "amount" || strContains h "price" ||
    strContains h "total")

/-- `headers.findIndex(h => h.includes('description'))`. -/
def csvDescIdx (content : String) : Option Nat :=
  (csvHeaders content).findIdx? (fun h => strContains h "description")

/-- `lines[i].split(',').map(v => v.trim())`. -/
def csvCells (line : String) : List String :=
  (jsSplit ',' line).map jsTrim

/-- `values[idx] || dflt`: out-of-range and `-1` indexing give
`undefined`, and both `undefined` and the empty string are falsy. -/
def jsIndexOr (values : List String) (idx : Option Nat) (dflt : String) :
    String :=
  match idx with
  | none => dflt
  | some i =>
    match values[i]? with
    | none => dflt
    | some v => if v = "" then dflt else v

/-- One iteration of the row loop.  `none`: the iteration throws
(`values[amountIdx]` is `undefined`); `some none`: the row is skipped
(guard `dateIdx >= 0 && amountIdx >= 0` fails); `some (some t)`: the row
produces transaction `t`. -/
def csvRow (today : String) (dateIdx merchantIdx amountIdx descIdx : Option Nat)
    (line : String) : Option (Option Transaction) :=
  let values := csvCells line
  match dateIdx, amountIdx with
  | some dIdx, some aIdx =>
    match values[aIdx]? with
    | none => none
    | some amountCell =>
      let merchant := jsIndexOr values merchantIdx "Unknown"
      let description := jsIndexOr values descIdx merchant
      some (some
        { date := jsIndexOr values (some dIdx) today
          merchant := merchant
          amount := jsAmount amountCell
          category := categorizeTransaction description merchant
          description := some description })
  | _, _ => some none

/-- Sequence the row results: an iteration that throws aborts the whole
call (including all later rows); skipped rows contribute nothing. -/
def collectRows : List (Option (Option Transaction)) → Option (List Transaction)
  | [] => some []
  | none :: _ => none
  | some none :: rest => collectRows rest
  | some (some t) :: rest => (collectRows rest).map (t :: ·)

/-- `parseCSV(content)` (the `async` wrapper turns a thrown `TypeError`
into a rejected promise, which the caller's `await` re-raises — either
way the failure is visible to the caller, modelled as `none`). -/
def parseCSV (today content : String) : Option (List Transaction) :=
  let lines := csvLines content
  if lines.length < 2 then some []
  else
    collectRows ((lines.drop 1).map
      (csvRow today (csvDateIdx content) (csvMerchantIdx content)
        (csvAmountIdx content) (csvDescIdx content)))

/-! ### Spreadsheet parser (src/main.ts lines 96–154)

`XLSX.read` and `sheet_to_json` are library calls outside the repository;
the embedding starts from their output: the first sheet as a list of
key→value records (`rows`), each an insertion-ordered association list
with string values.  The whole body is wrapped in `try`/`catch { return
[] }` — the only failure sources are inside the library call, so the
post-library stage is embedded as a total function. -/

/-- `Object.keys(row).find(p)`. -/
def excelFindKey (row : List (String × String)) (p : String → Bool) :
    Option String :=
  (row.map Prod.fst).find? p

/-- The per-row date-key search (case-insensitive substring match). -/
def excelDateKey (row : List (String × String)) : Option String :=
  excelFindKey row (fun k => strContains (toLowerStr k) "date")

/-- The per-row merchant-key search. -/
def excelMerchantKey (row : List (String × String)) : Option String :=
  excelFindKey row (fun k =>
    strContains (toLowerStr k) "merchant" ||
    strContains (toLowerStr k) "description" ||
    strContains (toLowerStr k) "name")

/-- The per-row amount-key search. -/
def excelAmountKey (row : List (String × String)) : Option String :=
  excelFindKey row (fun k =>
    strContains (toLowerStr k) "amount" ||
    strContains (toLowerStr k) "price" ||
    strContains (toLowerStr k) "total")

/-- The per-row category-key search. -/
def excelCategoryKey (row : List (String × String)) : Option String :=
  excelFindKey row (fun k =>
    strContains (toLowerStr k) "category" ||
    strContains (toLowerStr k) "type")

/-- `row[k]`: a missing key gives `undefined`, modelled (like the empty
string) as `""` — the two are used only under `|| default`, where both
are falsy. -/
def rowGet (row : List (String × String)) (k : String) : String :=
  (((row.find? (fun kv => decide (kv.1 = k))).map Prod.snd)).getD ""

/-- `v || dflt` for string values. -/
def jsOr (v dflt : String) : String :=
  if v = "" then dflt else v

/-- One iteration of the `for (const row of jsonData)` loop: `none` when
the `if (dateKey && amountKey)` guard fails (row dropped).  `row[merchantKey
|| '']` and `row[categoryKey || '']` look up the empty-string key when the
search failed. -/
def excelRow (today : String) (row : List (String × String)) :
    Option Transaction :=
  match excelDateKey row, excelAmountKey row with
  | some dateKey, some amountKey =>
    some
      { date := jsOr (rowGet row dateKey) today
        merchant := jsOr (rowGet row ((excelMerchantKey row).getD "")) "Unknown"
        amount := jsAmount (rowGet row amountKey)
        category :=
          jsOr (rowGet row ((excelCategoryKey row).getD "")) "Uncategorized"
        description := none }
  | _, _ => none

/-- `parseExcel`, from the `sheet_to_json` boundary on (an empty `rows`
yields `[]`, as does the explicit `jsonData.length === 0` check). -/
def parseExcel (today : String) (rows : List (List (String × String))) :
    List Transaction :=
  rows.filterMap (excelRow today)

/-- `parsePDF` (src/main.ts lines 156–159): unconditionally empty. -/
def parsePDF (_arrayBuffer : ByteArray) : List Transaction := []

/-! ### Sorting (JS `Array.prototype.sort`)

Modern engines implement a stable sort (required since ES2019); it is
modelled by a stable insertion sort over a boolean comparator `le`,
where `le x y = true` means the comparator lets `x` precede `y` (so on a
tie `le x y = true`, keeping the earlier element first). -/

/-- Insert `x` before the first element `y` with `le x y`. -/
def insertOrd (le : α → α → Bool) (x : α) : List α → List α
  | [] => [x]
  | y :: ys => if le x y then x :: y :: ys else y :: insertOrd le x ys

/-- Stable insertion sort. -/
def sortOrd (le : α → α → Bool) : List α → List α
  | [] => []
  | x :: xs => insertOrd le x (sortOrd le xs)

/-- JS default string comparison (by code unit; on the BMP this is the
same as comparing Lean characters). -/
def charsLe : List Char → List Char → Bool
  | [], _ => true
  | _ :: _, [] => false
  | a :: as, b :: bs =>
    if a.toNat = b.toNat then charsLe as bs else decide (a.toNat < b.toNat)

/-- `a <= b` for JS strings (used by the default `sort()` comparator). -/
def strLeB (a b : String) : Bool := charsLe a.data b.data

/-! ### JS dictionary objects

A `Record<string, _>` is an association list with unique keys in
insertion order.  `Object.keys` / `Object.entries` enumerate canonical
array-index keys (`"0"`, `"1"`, …, below 2^32 − 1, no leading zero)
first, in ascending numeric order, then the remaining keys in insertion
order (ECMAScript `OrdinaryOwnPropertyKeys`). -/

/-- Upsert mirroring `m[k] = (m[k] || 0) + v` (for a fresh key the source
computes `0 + v`, written here as `v`). -/
def addTo : List (String × ℚ) → String → ℚ → List (String × ℚ)
  | [], key, v => [(key, v)]
  | (k, v0) :: rest, key, v =>
    if k = key then (k, v0 + v) :: rest else (k, v0) :: addTo rest key v

/-- Upsert for the merchant map, mirroring the `{spent, count}` init to
`{0, 0}` followed by `spent += amount; count += 1` (for a fresh key the
source computes `0 + amount` and `0 + 1`, written here as `amount`, `1`). -/
def addMerchant : List (String × ℚ × Nat) → String → ℚ → List (String × ℚ × Nat)
  | [], key, amt => [(key, amt, 1)]
  | (k, s, c) :: rest, key, amt =>
    if k = key then (k, s + amt, c + 1) :: rest
    else (k, s, c) :: addMerchant rest key amt

/-- Is `s` a canonical array-index property key: a digit string with no
leading zero (except `"0"` itself) whose value is below 2^32 − 1? -/
def isArrayIndexKey (s : String) : Bool :=
  match s.data with
  | [] => false
  | c :: cs =>
    (c :: cs).all Char.isDigit && (decide (c ≠ '0') || cs.isEmpty) &&
      decide (digitsToNat (c :: cs) < 4294967295)

/-- ECMAScript own-property enumeration order of a dictionary object. -/
def jsEntries (m : List (String × α)) : List (String × α) :=
  sortOrd (fun a b => decide (digitsToNat a.1.data ≤ digitsToNat b.1.data))
      (m.filter (fun kv => isArrayIndexKey kv.1))
    ++ m.filter (fun kv => !isArrayIndexKey kv.1)

/-- `m[k]` for a numeric dictionary where the caller knows the key is
present (`byMonth[m]` in the forecast); a missing key would be
`undefined`, modelled as `0`. -/
def lookupQ (m : List (String × ℚ)) (k : String) : ℚ :=
  ((m.find? (fun kv => decide (kv.1 = k))).map Prod.snd).getD 0

/-! ### Report shape (src/main.ts lines 19–43) -/

structure Totals where
  transactionCount : Nat
  totalSpent : ℚ
  avgSpendPerTxn : ℚ
deriving DecidableEq, Repr

structure MerchantTotal where
  merchant : String
  spent : ℚ
  count : Nat
deriving DecidableEq, Repr

structure Forecast where
  nextMonthSpend : ℤ
  confidence : String
  method : String
deriving DecidableEq, Repr

structure HealthScore where
  score : ℤ
  summary : String
deriving DecidableEq, Repr

/-- `end` is a Lean keyword, hence the quoted field name. -/
structure PeriodHint where
  start : String
  «end» : String
  monthsDetected : Nat
deriving DecidableEq, Repr

structure Report where
  totals : Totals
  byCategory : List (String × ℚ)
  byMonth : List (String × ℚ)
  topMerchants : List MerchantTotal
  budget : List (String × ℤ)
  forecast : Option Forecast
  healthScore : HealthScore
  periodHint : PeriodHint
deriving DecidableEq, Repr

/-! ### Report generation (src/main.ts lines 185–283)

The source computes each section in sequence from `transactions`; the
embedding names each section as a definition of the transaction list. -/

/-- `transactions.reduce((sum, t) => sum + t.amount, 0)`. -/
def totalSpentOf (transactions : List Transaction) : ℚ :=
  transactions.foldl (fun sum t => sum + t.amount) 0

/-- The `byCategory` accumulation loop. -/
def byCategoryOf (transactions : List Transaction) : List (String × ℚ) :=
  transactions.foldl (fun m t => addTo m t.category t.amount) []

/-- `t.date.substring(0, 7)`. -/
def monthOf (date : String) : String := String.mk (date.data.take 7)

/-- The `byMonth` accumulation loop. -/
def byMonthOf (transactions : List Transaction) : List (String × ℚ) :=
  transactions.foldl (fun m t => addTo m (monthOf t.date) t.amount) []

/-- The `merchantMap` accumulation loop. -/
def merchantMapOf (transactions : List Transaction) : List (String × ℚ × Nat) :=
  transactions.foldl (fun m t => addMerchant m t.merchant t.amount) []

/-- The comparator `(a, b) => b.spent - a.spent`: `a` may precede `b`
exactly when the comparator result is `<= 0`, i.e. `b.spent ≤ a.spent`. -/
def merLeB (a b : MerchantTotal) : Bool := decide (b.spent ≤ a.spent)

/-- `Object.entries(merchantMap).map(...).sort((a,b) => b.spent -
a.spent).slice(0, 10)`. -/
def topMerchantsOf (transactions : List Transaction) : List MerchantTotal :=
  (sortOrd merLeB ((jsEntries (merchantMapOf transactions)).map
    (fun kv => ⟨kv.1, kv.2.1, kv.2.2⟩))).take 10

/-- `budget[cat] = Math.ceil(spent * 1.1)` over `Object.entries(byCategory)`
(the literal `1.1` is idealised as the exact rational 11/10). -/
def budgetOf (transactions : List Transaction) : List (String × ℤ) :=
  (jsEntries (byCategoryOf transactions)).map
    (fun kv => (kv.1, ⌈kv.2 * (11 / 10 : ℚ)⌉))

/-- `Object.keys(byMonth).sort()`. -/
def monthsOf (transactions : List Transaction) : List String :=
  sortOrd strLeB ((jsEntries (byMonthOf transactions)).map Prod.fst)

/-- The forecast block: `null` unless at least two months are present. -/
def forecastOf (transactions : List Transaction) : Option Forecast :=
  let months := monthsOf transactions
  if 2 ≤ months.length then
    let recentMonths := months.drop (months.length - 3)
    let avgRecent :=
      (recentMonths.foldl
        (fun sum m => sum + lookupQ (byMonthOf transactions) m) 0) /
        (recentMonths.length : ℚ)
    some
      { nextMonthSpend := jsRound avgRecent
        confidence := if 3 ≤ months.length then "High" else "Medium"
        method := "Average of last 3 months" }
  else none

/-- The guard `byCategory['Dining'] && byCategory['Dining'] > totalSpent *
0.3`: a missing key is `undefined` (falsy), the number `0` is falsy, and
the literal `0.3` is idealised as the exact rational 3/10. -/
def diningCond (transactions : List Transaction) : Bool :=
  match (byCategoryOf transactions).find? (fun kv => decide (kv.1 = "Dining")) with
  | none => false
  | some kv =>
    decide (kv.2 ≠ 0) && decide (totalSpentOf transactions * (3 / 10) < kv.2)

/-- The `score` variable after the three penalty `if`s (before clamping;
the source's `summary` reads this unclamped value). -/
def rawHealthScore (transactions : List Transaction) : ℤ :=
  let avgMonthly :=
    totalSpentOf transactions / ((byMonthOf transactions).length : ℚ)
  let score0 : ℤ := 75
  let score1 := if 3000 < avgMonthly then score0 - 15 else score0
  let score2 := if 5000 < avgMonthly then score1 - 10 else score1
  if diningCond transactions then score2 - 10 else score2

/-- The `healthScore` record: clamped score, summary from the raw score. -/
def healthScoreOf (transactions : List Transaction) : HealthScore :=
  { score := max 0 (min 100 (rawHealthScore transactions))
    summary :=
      if 80 ≤ rawHealthScore transactions then "Excellent financial health!"
      else if 60 ≤ rawHealthScore transactions then
        "Good, with room for improvement"
      else "Consider reducing spending" }

/-- `transactions.map(t => t.date).sort()` with `dates[0]` and
`dates[dates.length - 1]`; `monthsDetected = Object.keys(byMonth).length`
(enumeration order does not change the length). -/
def periodHintOf (transactions : List Transaction) : PeriodHint :=
  let dates := sortOrd strLeB (transactions.map (fun t => t.date))
  { start := dates.headD ""
    «end» := dates.getLast?.getD ""
    monthsDetected := (byMonthOf transactions).length }

/-- The explicit empty-input branch (src/main.ts lines 186–197). -/
def emptyReport : Report :=
  { totals := { transactionCount := 0, totalSpent := 0, avgSpendPerTxn := 0 }
    byCategory := []
    byMonth := []
    topMerchants := []
    budget := []
    forecast := none
    healthScore := { score := 0, summary := "No data available" }
    periodHint := { start := "", «end» := "", monthsDetected := 0 } }

/-- `generateReport(transactions)`. -/
def generateReport (transactions : List Transaction) : Report :=
  if transactions.length = 0 then emptyReport
  else
    { totals :=
        { transactionCount := transactions.length
          totalSpent := totalSpentOf transactions
          avgSpendPerTxn := totalSpentOf transactions / (transactions.length : ℚ) }
      byCategory := byCategoryOf transactions
      byMonth := byMonthOf transactions
      topMerchants := topMerchantsOf transactions
      budget := budgetOf transactions
      forecast := forecastOf transactions
      healthScore := healthScoreOf transactions
      periodHint := periodHintOf transactions }

/-! ### Mutation tracking for `generateReport`

To settle whether `generateReport` mutates its input, each JS array
operation the source applies to the `transactions` array is modelled by a
state-passing primitive returning the result *and* the receiver array as
it stands after the call.  Per the ECMAScript specification,
`Array.prototype.reduce`, `forEach` and `map` do not modify their
receiver; the two `sort` calls in the source are applied to freshly
created arrays (`Object.entries(...)` / `transactions.map(...)`), never
to `transactions` itself. -/

/-- `arr.reduce(f, init)`: result plus the untouched receiver. -/
def jsReduce (arr : List α) (f : β → α → β) (init : β) : β × List α :=
  (arr.foldl f init, arr)

/-- `arr.forEach(...)` used to accumulate a dictionary: final accumulator
plus the untouched receiver. -/
def jsForEachBuild (arr : List α) (step : σ → α → σ) (init : σ) : σ × List α :=
  (arr.foldl step init, arr)

/-- `arr.map(f)`: a fresh array plus the untouched receiver. -/
def jsMapOp (arr : List α) (f : α → β) : List β × List α :=
  (arr.map f, arr)

/-- `generateReport` with the `transactions` array threaded through every
array operation the source applies to it, in source order; the second
component is the array as the caller sees it after the call returns. -/
def generateReportTracked (transactions : List Transaction) :
    Report × List Transaction :=
  if transactions.length = 0 then (emptyReport, transactions)
  else
    let (totalSpent, tr1) :=
      jsReduce transactions (fun sum t => sum + t.amount) 0
    let (byCategory, tr2) :=
      jsForEachBuild tr1 (fun m t => addTo m t.category t.amount) []
    let (byMonth, tr3) :=
      jsForEachBuild tr2 (fun m t => addTo m (monthOf t.date) t.amount) []
    let (merchantMap, tr4) :=
      jsForEachBuild tr3 (fun m t => addMerchant m t.merchant t.amount) []
    let topMerchants :=
      (sortOrd merLeB ((jsEntries merchantMap).map
        (fun kv => ⟨kv.1, kv.2.1, kv.2.2⟩))).take 10
    let budget :=
      (jsEntries byCategory).map (fun kv => (kv.1, ⌈kv.2 * (11 / 10 : ℚ)⌉))
    let months := sortOrd strLeB ((jsEntries byMonth).map Prod.fst)
    let forecast :=
      if 2 ≤ months.length then
        let recentMonths := months.drop (months.length - 3)
        let avgRecent :=
          (recentMonths.foldl (fun sum m => sum + lookupQ byMonth m) 0) /
            (recentMonths.length : ℚ)
        some
          { nextMonthSpend := jsRound avgRecent
            confidence := if 3 ≤ months.length then "High" else "Medium"
            method := "Average of last 3 months" }
      else none
    let (dates0, tr5) := jsMapOp tr4 (fun t => t.date)
    let dates := sortOrd strLeB dates0
    (⟨{ transactionCount := tr5.length
        totalSpent := totalSpent
        avgSpendPerTxn := totalSpent / (tr5.length : ℚ) },
      byCategory, byMonth, topMerchants, budget, forecast,
      healthScoreOf transactions,
      { start := dates.headD ""
        «end» := dates.getLast?.getD ""
        monthsDetected := byMonth.length }⟩,
     tr5)

/-! ### Definitions taken from the specification's wording

These are *not* translations of the source; they restate the
specification's own formulas, to be compared with the source-derived
definitions above. -/

/-- Spec §4.2: "lowercases and concatenates the two fields, then returns
the category of the first rule (in table order) for which any keyword
appears as a substring; if none match, returns `Other`". -/
def specCategorize (description merchant : String) : String :=
  let text := toLowerStr (description ++ " " ++ merchant)
  match CATEGORY_RULES.find?
      (fun rule => rule.2.any (fun keyword => strContains text keyword)) with
  | some rule => rule.1
  | none => "Other"

/-- Spec §4.3 Forecast: "requires at least 2 distinct months present in
ByMonth; otherwise forecast is null.  Take the chronologically-last up to
3 months (ascending sort of month keys, then slice the tail), average
their spend, round to nearest integer; confidence High if ≥ 3 months are
available, else Medium." -/
def specForecast (byMonth : List (String × ℚ)) : Option Forecast :=
  if byMonth.length < 2 then none
  else
    let months := sortOrd strLeB (byMonth.map Prod.fst)
    let lastMonths := months.drop (months.length - 3)
    some
      { nextMonthSpend :=
          jsRound ((lastMonths.map (lookupQ byMonth)).sum /
            (lastMonths.length : ℚ))
        confidence := if 3 ≤ byMonth.length then "High" else "Medium"
        method := "Average of last 3 months" }

/-- Spec §4.3 HealthScore: start at 75; −15 if the monthly average
exceeds 3000; independently −10 if it exceeds 5000; −10 if Dining spend
exceeds 30% of total; clamp to [0, 100]; summary by thresholds on the
clamped score. -/
def specHealthScore (transactions : List Transaction) : HealthScore :=
  let total := (transactions.map (fun t => t.amount)).sum
  let avgMonthly := total / ((byMonthOf transactions).length : ℚ)
  let p1 : ℤ := if 3000 < avgMonthly then 15 else 0
  let p2 : ℤ := if 5000 < avgMonthly then 10 else 0
  let p3 : ℤ :=
    if total * (3 / 10) < lookupQ (byCategoryOf transactions) "Dining" then 10
    else 0
  let clamped := max 0 (min 100 (75 - p1 - p2 - p3))
  { score := clamped
    summary :=
      if 80 ≤ clamped then "Excellent financial health!"
      else if 60 ≤ clamped then "Good, with room for improvement"
      else "Consider reducing spending" }

/-- Spec §3: dates canonicalized to `YYYY-MM-DD` (ten characters, four
digits, dash, two digits, dash, two digits). -/
def isYYYYMMDD (s : String) : Bool :=
  match s.data with
  | [c0, c1, c2, c3, c4, c5, c6, c7, c8, c9] =>
    c0.isDigit && c1.isDigit && c2.isDigit && c3.isDigit && (c4 == '-') &&
      c5.isDigit && c6.isDigit && (c7 == '-') && c8.isDigit && c9.isDigit
  | _ => false

/-- Index of the first transaction bearing a given merchant name ("the
order merchants were first encountered in the input"). -/
def firstSeenPos (transactions : List Transaction) (m : String) : Nat :=
  transactions.findIdx (fun t => decide (t.merchant = m))

/-- Sum of the values of a string-keyed numeric dictionary. -/
def sumValues (m : List (String × ℚ)) : ℚ := (m.map Prod.snd).sum

/-! ### Lemmas: the stable insertion sort -/

theorem mem_insertOrd {α : Type*} (le : α → α → Bool) (x a : α) :
    ∀ (l : List α), a ∈ insertOrd le x l ↔ a = x ∨ a ∈ l
  | [] => by simp [insertOrd]
  | y :: ys => by
    by_cases h : le x y = true
    · simp [insertOrd, h]
    · simp only [insertOrd, if_neg h, List.mem_cons, mem_insertOrd le x a ys]
      tauto

theorem insertOrd_perm {α : Type*} (le : α → α → Bool) (x : α) :
    ∀ (l : List α), (insertOrd le x l).Perm (x :: l)
  | [] => by simp [insertOrd]
  | y :: ys => by
    by_cases h : le x y = true
    · simp [insertOrd, h]
    · simpa only [insertOrd, if_neg h] using
        ((insertOrd_perm le x ys).cons y).trans (List.Perm.swap x y ys)

theorem sortOrd_perm {α : Type*} (le : α → α → Bool) :
    ∀ (l : List α), (sortOrd le l).Perm l
  | [] => by simp [sortOrd]
  | x :: xs => by
    simpa only [sortOrd] using
      (insertOrd_perm le x (sortOrd le xs)).trans ((sortOrd_perm le xs).cons x)

theorem mem_sortOrd {α : Type*} (le : α → α → Bool) (a : α) (l : List α) :
    a ∈ sortOrd le l ↔ a ∈ l :=
  (sortOrd_perm le l).mem_iff

theorem length_sortOrd {α : Type*} (le : α → α → Bool) (l : List α) :
    (sortOrd le l).length = l.length :=
  (sortOrd_perm le l).length_eq

theorem pairwise_insertOrd {α : Type*} (le : α → α → Bool)
    (htot : ∀ a b, ¬ le a b = true → le b a = true)
    (htrans : ∀ a b c, le a b = true → le b c = true → le a c = true)
    (x : α) : ∀ (l : List α), l.Pairwise (fun a b => le a b = true) →
    (insertOrd le x l).Pairwise (fun a b => le a b = true)
  | [], _ => by simp [insertOrd]
  | y :: ys, hp => by
    rcases List.pairwise_cons.mp hp with ⟨hy, hys⟩
    by_cases h : le x y = true
    · rw [insertOrd, if_pos h]
      refine List.pairwise_cons.mpr ⟨?_, hp⟩
      intro b hb
      rcases List.mem_cons.mp hb with heq | hb
      · exact heq ▸ h
      · exact htrans x y b h (hy b hb)
    · rw [insertOrd, if_neg h]
      refine List.pairwise_cons.mpr
        ⟨?_, pairwise_insertOrd le htot htrans x ys hys⟩
      intro b hb
      rcases (mem_insertOrd le x b ys).mp hb with heq | hb
      · exact heq ▸ htot x y h
      · exact hy b hb

theorem pairwise_sortOrd {α : Type*} (le : α → α → Bool)
    (htot : ∀ a b, ¬ le a b = true → le b a = true)
    (htrans : ∀ a b c, le a b = true → le b c = true → le a c = true) :
    ∀ (l : List α), (sortOrd le l).Pairwise (fun a b => le a b = true)
  | [] => by simp [sortOrd]
  | x :: xs => by
    simpa only [sortOrd] using
      pairwise_insertOrd le htot htrans x (sortOrd le xs)
        (pairwise_sortOrd le htot htrans xs)

/-! ### Lemmas: stability of the merchant sort -/

theorem pairwise_insertOrd_tie (P : MerchantTotal → MerchantTotal → Prop)
    (x : MerchantTotal) :
    ∀ (l : List MerchantTotal),
    l.Pairwise (fun a b => a.spent = b.spent → P a b) →
    (∀ y ∈ l, x.spent = y.spent → P x y) →
    (insertOrd merLeB x l).Pairwise (fun a b => a.spent = b.spent → P a b)
  | [], _, _ => by simp [insertOrd]
  | y :: ys, hp, hx => by
    rcases List.pairwise_cons.mp hp with ⟨hy, hys⟩
    by_cases h : merLeB x y = true
    · rw [insertOrd, if_pos h]
      exact List.pairwise_cons.mpr ⟨fun b hb => hx b hb, hp⟩
    · rw [insertOrd, if_neg h]
      refine List.pairwise_cons.mpr
        ⟨?_, pairwise_insertOrd_tie P x ys hys
          (fun b hb h' => hx b (List.mem_cons_of_mem y hb) h')⟩
      intro b hb heq
      rcases (mem_insertOrd merLeB x b ys).mp hb with heq' | hb
      · exfalso
        simp only [merLeB, decide_eq_true_eq] at h
        rw [heq'] at heq
        exact h (heq ▸ le_refl _)
      · exact hy b hb heq

theorem pairwise_sortOrd_tie (P : MerchantTotal → MerchantTotal → Prop) :
    ∀ (l : List MerchantTotal), l.Pairwise P →
    (sortOrd merLeB l).Pairwise (fun a b => a.spent = b.spent → P a b)
  | [], _ => by simp [sortOrd]
  | x :: xs, hp => by
    rcases List.pairwise_cons.mp hp with ⟨hx, hxs⟩
    simpa only [sortOrd] using
      pairwise_insertOrd_tie P x (sortOrd merLeB xs)
        (pairwise_sortOrd_tie P xs hxs)
        (fun y hy _ => hx y ((mem_sortOrd merLeB y xs).mp hy))

/-! ### Lemmas: the string order -/

theorem char_toNat_inj {a b : Char} (h : a.toNat = b.toNat) : a = b :=
  Char.ext (UInt32.ext h)

theorem charsLe_total : ∀ (a b : List Char),
    charsLe a b = true ∨ charsLe b a = true
  | [], _ => Or.inl rfl
  | _ :: _, [] => Or.inr rfl
  | a :: as, b :: bs => by
    by_cases h : a.toNat = b.toNat
    · simpa only [charsLe, if_pos h, if_pos h.symm] using charsLe_total as bs
    · have h' : ¬ b.toNat = a.toNat := fun e => h e.symm
      simp only [charsLe, if_neg h, if_neg h', decide_eq_true_eq]
      omega

theorem charsLe_trans : ∀ (a b c : List Char),
    charsLe a b = true → charsLe b c = true → charsLe a c = true
  | [], _, _, _, _ => rfl
  | _ :: _, [], _, h, _ => by simp [charsLe] at h
  | _ :: _, _ :: _, [], _, h => by simp [charsLe] at h
  | a :: as, b :: bs, c :: cs, h1, h2 => by
    by_cases hab : a.toNat = b.toNat
    · by_cases hbc : b.toNat = c.toNat
      · rw [charsLe, if_pos hab] at h1
        rw [charsLe, if_pos hbc] at h2
        rw [charsLe, if_pos (hab.trans hbc)]
        exact charsLe_trans as bs cs h1 h2
      · rw [charsLe, if_neg hbc, decide_eq_true_eq] at h2
        have hac : ¬ a.toNat = c.toNat := by omega
        rw [charsLe, if_neg hac, decide_eq_true_eq]
        omega
    · rw [charsLe, if_neg hab, decide_eq_true_eq] at h1
      by_cases hbc : b.toNat = c.toNat
      · have hac : ¬ a.toNat = c.toNat := by omega
        rw [charsLe, if_neg hac, decide_eq_true_eq]
        omega
      · rw [charsLe, if_neg hbc, decide_eq_true_eq] at h2
        have hac : ¬ a.toNat = c.toNat := by omega
        rw [charsLe, if_neg hac, decide_eq_true_eq]
        omega

theorem charsLe_antisymm : ∀ (a b : List Char),
    charsLe a b = true → charsLe b a = true → a = b
  | [], [], _, _ => rfl
  | [], _ :: _, _, h => by simp [charsLe] at h
  | _ :: _, [], h, _ => by simp [charsLe] at h
  | a :: as, b :: bs, h1, h2 => by
    by_cases hab : a.toNat = b.toNat
    · rw [charsLe, if_pos hab] at h1
      rw [charsLe, if_pos hab.symm] at h2
      rw [char_toNat_inj hab, charsLe_antisymm as bs h1 h2]
    · have hba : ¬ b.toNat = a.toNat := fun e => hab e.symm
      rw [charsLe, if_neg hab, decide_eq_true_eq] at h1
      rw [charsLe, if_neg hba, decide_eq_true_eq] at h2
      omega

theorem strLeB_total (a b : String) : strLeB a b = true ∨ strLeB b a = true :=
  charsLe_total a.data b.data

theorem strLeB_total' (a b : String) (h : ¬ strLeB a b = true) :
    strLeB b a = true :=
  (strLeB_total a b).resolve_left h

theorem strLeB_trans (a b c : String) (h1 : strLeB a b = true)
    (h2 : strLeB b c = true) : strLeB a c = true :=
  charsLe_trans a.data b.data c.data h1 h2

theorem strLeB_antisymm (a b : String) (h1 : strLeB a b = true)
    (h2 : strLeB b a = true) : a = b := by
  cases a with
  | mk da =>
    cases b with
    | mk db => exact congrArg String.mk (charsLe_antisymm da db h1 h2)

theorem sortOrd_strLeB_eq_of_perm {l1 l2 : List String} (h : l1.Perm l2) :
    sortOrd strLeB l1 = sortOrd strLeB l2 :=
  @List.eq_of_perm_of_sorted String (fun a b => strLeB a b = true)
    ⟨strLeB_antisymm⟩ _ _
    ((sortOrd_perm strLeB l1).trans (h.trans (sortOrd_perm strLeB l2).symm))
    (pairwise_sortOrd strLeB (fun x y hx => strLeB_total' x y hx)
      (fun x y z => strLeB_trans x y z) l1)
    (pairwise_sortOrd strLeB (fun x y hx => strLeB_total' x y hx)
      (fun x y z => strLeB_trans x y z) l2)

/-! ### Lemmas: dictionary upserts and value sums -/

theorem sumValues_addTo : ∀ (m : List (String × ℚ)) (k : String) (v : ℚ),
    sumValues (addTo m k v) = sumValues m + v
  | [], k, v => by simp [addTo, sumValues]
  | (k0, v0) :: rest, k, v => by
    by_cases h : k0 = k
    · simp only [addTo, if_pos h, sumValues, List.map_cons, List.sum_cons]
      ring
    · simp only [addTo, if_neg h, sumValues, List.map_cons, List.sum_cons]
      have := sumValues_addTo rest k v
      simp only [sumValues] at this
      rw [this]
      ring

theorem keys_addTo : ∀ (m : List (String × ℚ)) (k : String) (v : ℚ),
    (addTo m k v).map Prod.fst =
      if k ∈ m.map Prod.fst then m.map Prod.fst else m.map Prod.fst ++ [k]
  | [], k, v => by simp [addTo]
  | (k0, v0) :: rest, k, v => by
    by_cases h : k0 = k
    · simp [addTo, if_pos h, h]
    · have h' : ¬ k = k0 := fun e => h e.symm
      by_cases hm : k ∈ rest.map Prod.fst
      · simp [addTo, if_neg h, keys_addTo rest k v, hm, h']
      · simp [addTo, if_neg h, keys_addTo rest k v, hm, h']

theorem mem_keys_addTo (m : List (String × ℚ)) (k : String) (v : ℚ)
    (a : String) :
    a ∈ (addTo m k v).map Prod.fst ↔ a ∈ m.map Prod.fst ∨ a = k := by
  rw [keys_addTo]
  by_cases h : k ∈ m.map Prod.fst
  · rw [if_pos h]
    exact ⟨Or.inl, fun h' => h'.elim id (fun e => e ▸ h)⟩
  · rw [if_neg h]
    simp

theorem nodup_keys_addTo (m : List (String × ℚ)) (k : String) (v : ℚ)
    (h : (m.map Prod.fst).Nodup) : ((addTo m k v).map Prod.fst).Nodup := by
  rw [keys_addTo]
  by_cases hm : k ∈ m.map Prod.fst
  · rwa [if_pos hm]
  · rw [if_neg hm]
    refine List.Nodup.append h (List.nodup_singleton k) ?_
    intro a ha hak
    rw [List.mem_singleton] at hak
    exact hm (hak ▸ ha)

theorem sum_foldl_add (f : Transaction → ℚ) :
    ∀ (ts : List Transaction) (a : ℚ),
    ts.foldl (fun s t => s + f t) a = a + (ts.map f).sum
  | [], a => by simp
  | t :: ts, a => by
    rw [List.foldl_cons, sum_foldl_add f ts (a + f t), List.map_cons,
      List.sum_cons]
    ring

theorem totalSpentOf_eq (ts : List Transaction) :
    totalSpentOf ts = (ts.map (fun t => t.amount)).sum := by
  simpa using sum_foldl_add (fun t => t.amount) ts 0

theorem sumValues_foldl_addTo (key : Transaction → String) :
    ∀ (ts : List Transaction) (m : List (String × ℚ)),
    sumValues (ts.foldl (fun m t => addTo m (key t) t.amount) m)
      = sumValues m + (ts.map (fun t => t.amount)).sum
  | [], m => by simp
  | t :: ts, m => by
    rw [List.foldl_cons, sumValues_foldl_addTo key ts _, sumValues_addTo,
      List.map_cons, List.sum_cons]
    ring

theorem sumValues_byCategoryOf (ts : List Transaction) :
    sumValues (byCategoryOf ts) = (ts.map (fun t => t.amount)).sum := by
  simpa [byCategoryOf, sumValues] using
    sumValues_foldl_addTo (fun t => t.category) ts []

theorem sumValues_byMonthOf (ts : List Transaction) :
    sumValues (byMonthOf ts) = (ts.map (fun t => t.amount)).sum := by
  simpa [byMonthOf, sumValues] using
    sumValues_foldl_addTo (fun t => monthOf t.date) ts []

theorem nodup_keys_foldl_addTo (key : Transaction → String) :
    ∀ (ts : List Transaction) (m : List (String × ℚ)),
    (m.map Prod.fst).Nodup →
    ((ts.foldl (fun m t => addTo m (key t) t.amount) m).map Prod.fst).Nodup
  | [], _, h => h
  | t :: ts, m, h =>
    nodup_keys_foldl_addTo key ts _ (nodup_keys_addTo m (key t) t.amount h)

theorem nodup_keys_byMonthOf (ts : List Transaction) :
    ((byMonthOf ts).map Prod.fst).Nodup :=
  nodup_keys_foldl_addTo (fun t => monthOf t.date) ts [] (by simp)

/-! ### Lemmas: sequencing the CSV row loop -/

theorem collectRows_isSome :
    ∀ (rows : List (Option (Option Transaction))),
    (∀ r ∈ rows, r.isSome) → (collectRows rows).isSome
  | [], _ => rfl
  | none :: rest, h => by simpa using h none (List.mem_cons_self _ _)
  | some none :: rest, h =>
    collectRows_isSome rest (fun r hr => h r (List.mem_cons_of_mem _ hr))
  | some (some t) :: rest, h => by
    have := collectRows_isSome rest (fun r hr => h r (List.mem_cons_of_mem _ hr))
    rw [collectRows]
    cases hr : collectRows rest
    · rw [hr] at this
      simp at this
    · simp

theorem mem_collectRows :
    ∀ (rows : List (Option (Option Transaction))) (ts : List Transaction),
    collectRows rows = some ts → ∀ t ∈ ts, some (some t) ∈ rows
  | [], ts, h, t, ht => by
    rw [collectRows] at h
    cases h
    simp at ht
  | none :: rest, ts, h, t, ht => by
    rw [collectRows] at h
    cases h
  | some none :: rest, ts, h, t, ht => by
    rw [collectRows] at h
    exact List.mem_cons_of_mem _ (mem_collectRows rest ts h t ht)
  | some (some t0) :: rest, ts, h, t, ht => by
    rw [collectRows] at h
    cases hr : collectRows rest with
    | none => rw [hr] at h; cases h
    | some ts' =>
      rw [hr] at h
      cases h
      rcases List.mem_cons.mp ht with heq | hmem
      · exact heq ▸ List.mem_cons_self _ _
      · exact List.mem_cons_of_mem _ (mem_collectRows rest ts' hr t hmem)

theorem length_collectRows :
    ∀ (rows : List (Option (Option Transaction))) (ts : List Transaction),
    collectRows rows = some ts →
    (∀ r ∈ rows, ∃ t, r = some (some t)) → ts.length = rows.length
  | [], ts, h, _ => by
    rw [collectRows] at h
    cases h
    rfl
  | none :: rest, ts, h, _ => by
    rw [collectRows] at h
    cases h
  | some none :: rest, ts, h, hall => by
    rcases hall (some none) (List.mem_cons_self _ _) with ⟨t, ht⟩
    cases ht
  | some (some t0) :: rest, ts, h, hall => by
    rw [collectRows] at h
    cases hr : collectRows rest with
    | none => rw [hr] at h; cases h
    | some ts' =>
      rw [hr] at h
      cases h
      have := length_collectRows rest ts' hr
        (fun r hr' => hall r (List.mem_cons_of_mem _ hr'))
      simp [this]

/-! ### Lemmas: parser rows -/

theorem jsAmount_nonneg (s : String) : 0 ≤ jsAmount s := by
  cases h : jsParseFloat (stripAmount s) with
  | none => simp [jsAmount, h]
  | some x => simp [jsAmount, h, abs_nonneg]

theorem csvRow_kept {today : String} {dIdx mIdx aIdx deIdx : Option Nat}
    {line : String} {t : Transaction}
    (h : csvRow today dIdx mIdx aIdx deIdx line = some (some t)) :
    ∃ di ai cell, dIdx = some di ∧ aIdx = some ai ∧
      (csvCells line)[ai]? = some cell ∧
      t = { date := jsIndexOr (csvCells line) (some di) today
            merchant := jsIndexOr (csvCells line) mIdx "Unknown"
            amount := jsAmount cell
            category := categorizeTransaction
              (jsIndexOr (csvCells line) deIdx
                (jsIndexOr (csvCells line) mIdx "Unknown"))
              (jsIndexOr (csvCells line) mIdx "Unknown")
            description := some (jsIndexOr (csvCells line) deIdx
              (jsIndexOr (csvCells line) mIdx "Unknown")) } := by
  cases dIdx with
  | none => simp [csvRow] at h
  | some di =>
    cases aIdx with
    | none => simp [csvRow] at h
    | some ai =>
      cases hc : (csvCells line)[ai]? with
      | none => simp [csvRow, hc] at h
      | some cell =>
        simp only [csvRow, hc, Option.some.injEq] at h
        exact ⟨di, ai, cell, rfl, rfl, hc, h.symm⟩

theorem csvRow_skipped {today : String} {dIdx mIdx aIdx deIdx : Option Nat}
    {line : String} (h : dIdx = none ∨ aIdx = none) :
    csvRow today dIdx mIdx aIdx deIdx line = some none := by
  rcases h with h | h
  · subst h
    cases aIdx <;> rfl
  · subst h
    cases dIdx <;> rfl

theorem csvRow_isSome {today : String} {dIdx mIdx aIdx deIdx : Option Nat}
    {line : String}
    (h : ∀ di ai, dIdx = some di → aIdx = some ai →
      ai < (csvCells line).length) :
    (csvRow today dIdx mIdx aIdx deIdx line).isSome := by
  cases dIdx with
  | none => rw [csvRow_skipped (Or.inl rfl)]; rfl
  | some di =>
    cases aIdx with
    | none => rw [csvRow_skipped (Or.inr rfl)]; rfl
    | some ai =>
      cases hc : (csvCells line)[ai]? with
      | none =>
        have := List.getElem?_eq_none_iff.mp hc
        exact absurd (h di ai rfl rfl) (by omega)
      | some cell => simp [csvRow, hc]

theorem csvRow_not_skipped {today : String} {di ai : Nat}
    {mIdx deIdx : Option Nat} {line : String} {o : Option Transaction}
    (h : csvRow today (some di) mIdx (some ai) deIdx line = some o) :
    ∃ t, o = some t := by
  cases hc : (csvCells line)[ai]? with
  | none => simp [csvRow, hc] at h
  | some cell =>
    simp only [csvRow, hc, Option.some.injEq] at h
    exact ⟨_, h.symm⟩

theorem excelRow_kept {today : String} {row : List (String × String)}
    {t : Transaction} (h : excelRow today row = some t) :
    ∃ dateKey amountKey, excelDateKey row = some dateKey ∧
      excelAmountKey row = some amountKey ∧
      t = { date := jsOr (rowGet row dateKey) today
            merchant :=
              jsOr (rowGet row ((excelMerchantKey row).getD "")) "Unknown"
            amount := jsAmount (rowGet row amountKey)
            category :=
              jsOr (rowGet row ((excelCategoryKey row).getD "")) "Uncategorized"
            description := none } := by
  cases hd : excelDateKey row with
  | none => simp [excelRow, hd] at h
  | some dateKey =>
    cases ha : excelAmountKey row with
    | none => simp [excelRow, hd, ha] at h
    | some amountKey =>
      simp only [excelRow, hd, ha, Option.some.injEq] at h
      exact ⟨dateKey, amountKey, rfl, rfl, h.symm⟩

theorem parseExcel_mem {today : String} {rows : List (List (String × String))}
    {t : Transaction} (h : t ∈ parseExcel today rows) :
    ∃ r, r ∈ rows ∧ excelRow today r = some t := by
  simpa [parseExcel, List.mem_filterMap] using h

theorem parseExcel_length (today : String) :
    ∀ (rows : List (List (String × String))),
    (parseExcel today rows).length =
      (rows.filter
        (fun r => (excelDateKey r).isSome && (excelAmountKey r).isSome)).length
  | [] => rfl
  | r :: rs => by
    have hb : ((excelDateKey r).isSome && (excelAmountKey r).isSome)
        = (excelRow today r).isSome := by
      cases d : excelDateKey r <;> cases a : excelAmountKey r <;>
        simp [excelRow, d, a]
    simp only [parseExcel, List.filterMap_cons, List.filter_cons, hb]
    cases he : excelRow today r with
    | none =>
      simpa [he] using parseExcel_length today rs
    | some t =>
      simpa [he] using parseExcel_length today rs

/-! ### Lemmas: dictionary enumeration order -/

theorem jsEntries_perm {α : Type*} (m : List (String × α)) :
    (jsEntries m).Perm m := by
  unfold jsEntries
  exact ((sortOrd_perm _ _).append_right _).trans (List.filter_append_perm _ m)

theorem jsEntries_eq_self {α : Type*} (m : List (String × α))
    (h : ∀ kv ∈ m, isArrayIndexKey kv.1 = false) : jsEntries m = m := by
  unfold jsEntries
  have h1 : m.filter (fun kv => isArrayIndexKey kv.1) = [] := by
    rw [List.filter_eq_nil_iff]
    intro kv hkv
    simp [h kv hkv]
  have h2 : m.filter (fun kv => !isArrayIndexKey kv.1) = m := by
    rw [List.filter_eq_self]
    intro kv hkv
    simp [h kv hkv]
  rw [h1, h2]
  rfl

/-! ### Lemmas: the categorizer -/

theorem categorizeLoop_eq_find? (text : String) :
    ∀ (rules : List (String × List String)),
    categorizeLoop text rules =
      match rules.find?
        (fun rule => rule.2.any (fun keyword => strContains text keyword)) with
      | some rule => rule.1
      | none => "Other"
  | [] => rfl
  | rule :: rest => by
    by_cases h : (rule.2.any fun keyword => strContains text keyword) = true
    · rw [categorizeLoop, if_pos h,
        show List.find?
            (fun rule : String × List String =>
              rule.2.any fun keyword => strContains text keyword)
            (rule :: rest) = some rule from List.find?_cons_of_pos _ h]
    · rw [categorizeLoop, if_neg h,
        show List.find?
            (fun rule : String × List String =>
              rule.2.any fun keyword => strContains text keyword)
            (rule :: rest)
          = List.find?
            (fun rule : String × List String =>
              rule.2.any fun keyword => strContains text keyword) rest from
          List.find?_cons_of_neg _ (by simpa using h),
        categorizeLoop_eq_find? text rest]

theorem categorizeLoop_head (text : String) (rule : String × List String)
    (rest : List (String × List String)) (kw : String) (hkw : kw ∈ rule.2)
    (h : strContains text kw = true) :
    categorizeLoop text (rule :: rest) = rule.1 := by
  rw [categorizeLoop, if_pos (List.any_eq_true.mpr ⟨kw, hkw, h⟩)]

theorem categorizeLoop_no_match (text : String) :
    ∀ (rules : List (String × List String)),
    (∀ rule ∈ rules, ∀ kw ∈ rule.2, strContains text kw = false) →
    categorizeLoop text rules = "Other"
  | [], _ => rfl
  | rule :: rest, h => by
    have hfalse : (rule.2.any fun kw => strContains text kw) = false := by
      rw [List.any_eq_false]
      intro kw hkw
      simp [h rule (List.mem_cons_self _ _) kw hkw]
    rw [categorizeLoop, if_neg (by simp [hfalse]),
      categorizeLoop_no_match text rest
        (fun r hr => h r (List.mem_cons_of_mem _ hr))]

/-! ### Lemmas: first-encountered merchant order -/

theorem findIdx_append_of_any (p : α → Bool) :
    ∀ (l1 l2 : List α), l1.any p = true →
    (l1 ++ l2).findIdx p = l1.findIdx p
  | [], _, h => by simp at h
  | a :: l1, l2, h => by
    by_cases ha : p a = true
    · simp [List.findIdx_cons, ha]
    · have ha' : p a = false := by simpa using ha
      have h' : l1.any p = true := by simpa [List.any_cons, ha'] using h
      simp [List.findIdx_cons, ha', findIdx_append_of_any p l1 l2 h']

theorem findIdx_append_of_not_any (p : α → Bool) :
    ∀ (l1 l2 : List α), l1.any p = false →
    (l1 ++ l2).findIdx p = l1.length + l2.findIdx p
  | [], _, _ => by simp
  | a :: l1, l2, h => by
    have ha : p a = false := by
      rcases List.any_eq_false.mp h a (List.mem_cons_self _ _) with h'
      simpa using h'
    have h' : l1.any p = false := by
      rw [List.any_eq_false]
      intro x hx
      exact List.any_eq_false.mp h x (List.mem_cons_of_mem _ hx)
    simp only [List.cons_append, List.findIdx_cons, ha, cond_false,
      findIdx_append_of_not_any p l1 l2 h', List.length_cons]
    omega

theorem findIdx_lt_of_any (p : α → Bool) :
    ∀ (l : List α), l.any p = true → l.findIdx p < l.length
  | [], h => by simp at h
  | a :: l, h => by
    by_cases ha : p a = true
    · simp [List.findIdx_cons, ha]
    · have ha' : p a = false := by simpa using ha
      have h' : l.any p = true := by simpa [List.any_cons, ha'] using h
      simpa [List.findIdx_cons, ha'] using findIdx_lt_of_any p l h'

theorem keys_addMerchant :
    ∀ (m : List (String × ℚ × Nat)) (k : String) (amt : ℚ),
    (addMerchant m k amt).map Prod.fst =
      if k ∈ m.map Prod.fst then m.map Prod.fst else m.map Prod.fst ++ [k]
  | [], k, amt => by simp [addMerchant]
  | (k0, v0) :: rest, k, amt => by
    by_cases h : k0 = k
    · simp [addMerchant, if_pos h, h]
    · have h' : ¬ k = k0 := fun e => h e.symm
      by_cases hm : k ∈ rest.map Prod.fst
      · simp [addMerchant, if_neg h, keys_addMerchant rest k amt, hm, h']
      · simp [addMerchant, if_neg h, keys_addMerchant rest k amt, hm, h']

theorem pairwise_firstSeen_aux :
    ∀ (rest done : List Transaction) (m : List (String × ℚ × Nat)),
    (∀ k, k ∈ m.map Prod.fst ↔
      done.any (fun t => decide (t.merchant = k)) = true) →
    (m.map Prod.fst).Pairwise
      (fun a b => firstSeenPos (done ++ rest) a < firstSeenPos (done ++ rest) b) →
    ((rest.foldl (fun m t => addMerchant m t.merchant t.amount) m).map
        Prod.fst).Pairwise
      (fun a b => firstSeenPos (done ++ rest) a < firstSeenPos (done ++ rest) b)
  | [], done, m, _, hp => by simpa using hp
  | t :: rest, done, m, hinv, hp => by
    have hassoc : done ++ t :: rest = (done ++ [t]) ++ rest := by simp
    rw [List.foldl_cons]
    rw [hassoc] at hp ⊢
    by_cases hmem : t.merchant ∈ m.map Prod.fst
    · have hkeys : (addMerchant m t.merchant t.amount).map Prod.fst
          = m.map Prod.fst := by rw [keys_addMerchant, if_pos hmem]
      refine pairwise_firstSeen_aux rest (done ++ [t]) _ ?_ (by rwa [hkeys])
      intro k
      rw [hkeys, hinv k]
      constructor
      · intro h
        rw [List.any_append, h, Bool.true_or]
      · intro h
        rw [List.any_append] at h
        rcases Bool.or_eq_true_iff.mp h with h' | h'
        · exact h'
        · have ht : t.merchant = k := by simpa using h'
          exact (hinv k).mp (ht ▸ hmem)
    · have hkeys : (addMerchant m t.merchant t.amount).map Prod.fst
          = m.map Prod.fst ++ [t.merchant] := by
        rw [keys_addMerchant, if_neg hmem]
      have hdone : done.any (fun t' => decide (t'.merchant = t.merchant)) = false := by
        cases hda : done.any (fun t' => decide (t'.merchant = t.merchant)) with
        | false => rfl
        | true => exact absurd ((hinv t.merchant).mpr hda) hmem
      have hposnew : firstSeenPos ((done ++ [t]) ++ rest) t.merchant = done.length := by
        rw [firstSeenPos, List.append_assoc,
          findIdx_append_of_not_any _ done _ hdone]
        simp [List.findIdx_cons]
      refine pairwise_firstSeen_aux rest (done ++ [t]) _ ?_ ?_
      · intro k
        rw [hkeys, List.mem_append, hinv k, List.any_append, List.mem_singleton]
        constructor
        · intro h
          rcases h with h | h
          · rw [h, Bool.true_or]
          · have ht : ([t].any fun t' => decide (t'.merchant = k)) = true := by
              simp [h]
            rw [ht, Bool.or_true]
        · intro h
          rcases Bool.or_eq_true_iff.mp h with h' | h'
          · exact Or.inl h'
          · have ht : t.merchant = k := by simpa using h'
            exact Or.inr ht.symm
      · rw [hkeys]
        refine List.pairwise_append.mpr ⟨hp, by simp, ?_⟩
        intro a ha b hb
        rw [List.mem_singleton] at hb
        subst hb
        have hda : done.any (fun t' => decide (t'.merchant = a)) = true :=
          (hinv a).mp ha
        have hlt : firstSeenPos ((done ++ [t]) ++ rest) a < done.length := by
          rw [firstSeenPos, List.append_assoc, findIdx_append_of_any _ done _ hda]
          exact findIdx_lt_of_any _ done hda
        rw [hposnew]
        exact hlt

theorem mem_keys_merchantFold :
    ∀ (ts : List Transaction) (m : List (String × ℚ × Nat)) (k : String),
    k ∈ ((ts.foldl (fun m t => addMerchant m t.merchant t.amount) m).map
      Prod.fst) ↔
      (k ∈ m.map Prod.fst ∨ ts.any (fun t => decide (t.merchant = k)) = true)
  | [], m, k => by simp
  | t :: ts, m, k => by
    rw [List.foldl_cons, mem_keys_merchantFold ts _ k, keys_addMerchant]
    by_cases hmem : t.merchant ∈ m.map Prod.fst
    · rw [if_pos hmem]
      simp only [List.any_cons]
      constructor
      · intro h
        rcases h with h | h
        · exact Or.inl h
        · exact Or.inr (by simp [h])
      · intro h
        rcases h with h | h
        · exact Or.inl h
        · rcases Bool.or_eq_true_iff.mp h with h' | h'
          · have : t.merchant = k := by simpa using h'
            exact Or.inl (this ▸ hmem)
          · exact Or.inr h'
    · rw [if_neg hmem]
      simp only [List.mem_append, List.mem_singleton, List.any_cons]
      constructor
      · intro h
        rcases h with (h | h) | h
        · exact Or.inl h
        · exact Or.inr (by simp [h])
        · exact Or.inr (by simp [h])
      · intro h
        rcases h with h | h
        · exact Or.inl (Or.inl h)
        · rcases Bool.or_eq_true_iff.mp h with h' | h'
          · have : t.merchant = k := by simpa using h'
            exact Or.inl (Or.inr this.symm)
          · exact Or.inr h'

theorem mem_keys_merchantMapOf (ts : List Transaction) (k : String) :
    k ∈ (merchantMapOf ts).map Prod.fst ↔
      ts.any (fun t => decide (t.merchant = k)) = true := by
  rw [merchantMapOf, mem_keys_merchantFold ts [] k]
  simp

theorem pairwise_firstSeen_merchantMap (ts : List Transaction) :
    ((merchantMapOf ts).map Prod.fst).Pairwise
      (fun a b => firstSeenPos ts a < firstSeenPos ts b) := by
  have := pairwise_firstSeen_aux ts [] [] (by simp) (by simp)
  simpa [merchantMapOf] using this

/-! ### Lemmas: forecast and health score -/

theorem sum_foldl_addG {α : Type*} (f : α → ℚ) :
    ∀ (l : List α) (a : ℚ), l.foldl (fun s x => s + f x) a = a + (l.map f).sum
  | [], a => by simp
  | x :: l, a => by
    rw [List.foldl_cons, sum_foldl_addG f l (a + f x), List.map_cons,
      List.sum_cons]
    ring

theorem monthsOf_eq (ts : List Transaction) :
    monthsOf ts = sortOrd strLeB ((byMonthOf ts).map Prod.fst) :=
  sortOrd_strLeB_eq_of_perm ((jsEntries_perm (byMonthOf ts)).map Prod.fst)

theorem length_monthsOf (ts : List Transaction) :
    (monthsOf ts).length = (byMonthOf ts).length := by
  rw [monthsOf_eq, length_sortOrd, List.length_map]

theorem forecastOf_eq_spec (ts : List Transaction) :
    forecastOf ts = specForecast (byMonthOf ts) := by
  have hlen := length_monthsOf ts
  simp only [forecastOf, specForecast]
  by_cases h2 : 2 ≤ (monthsOf ts).length
  · have hspec : ¬ ((byMonthOf ts).length < 2) := by omega
    rw [if_pos h2, if_neg hspec, monthsOf_eq ts, sum_foldl_addG, zero_add,
      length_sortOrd, List.length_map]
  · have hspec : (byMonthOf ts).length < 2 := by omega
    rw [if_neg h2, if_pos hspec]

theorem diningCond_iff (ts : List Transaction) (htot : 0 ≤ totalSpentOf ts) :
    diningCond ts = true ↔
      totalSpentOf ts * (3 / 10) < lookupQ (byCategoryOf ts) "Dining" := by
  rw [diningCond, lookupQ]
  cases hf : (byCategoryOf ts).find? (fun kv => decide (kv.1 = "Dining")) with
  | none =>
    simp only [Option.map_none', Option.getD_none]
    constructor
    · intro h
      cases h
    · intro h
      exact absurd h (not_lt.mpr (mul_nonneg htot (by norm_num)))
  | some kv =>
    simp only [Option.map_some', Option.getD_some, Bool.and_eq_true,
      decide_eq_true_eq]
    constructor
    · intro h
      exact h.2
    · intro h
      exact ⟨(lt_of_le_of_lt (mul_nonneg htot (by norm_num)) h).ne', h⟩

theorem rawHealthScore_eq (ts : List Transaction)
    (htot : 0 ≤ totalSpentOf ts) :
    rawHealthScore ts =
      75 -
        (if 3000 < totalSpentOf ts / ((byMonthOf ts).length : ℚ) then (15 : ℤ)
          else 0) -
        (if 5000 < totalSpentOf ts / ((byMonthOf ts).length : ℚ) then (10 : ℤ)
          else 0) -
        (if totalSpentOf ts * (3 / 10) < lookupQ (byCategoryOf ts) "Dining"
          then (10 : ℤ) else 0) := by
  have hd := diningCond_iff ts htot
  simp only [rawHealthScore, hd]
  split_ifs <;> omega

theorem rawHealthScore_bounds (ts : List Transaction)
    (htot : 0 ≤ totalSpentOf ts) :
    40 ≤ rawHealthScore ts ∧ rawHealthScore ts ≤ 75 := by
  rw [rawHealthScore_eq ts htot]
  split_ifs <;> omega

/-! ### Claim theorems -/

/-- C9: `categorize(description, merchant)` lowercases and concatenates
the two fields and returns the category of the first rule in table order
for which any keyword appears as a substring, returning "Other" when no
rule matches; in particular, text containing "starbucks" always yields
"Dining", and text matching no keyword yields "Other". -/
theorem C9_categorizer_first_match :
    (∀ d m, categorizeTransaction d m = specCategorize d m) ∧
    (∀ d m, strContains (toLowerStr (d ++ " " ++ m)) "starbucks" = true →
      categorizeTransaction d m = "Dining") ∧
    (∀ d m, (∀ rule ∈ CATEGORY_RULES, ∀ kw ∈ rule.2,
        strContains (toLowerStr (d ++ " " ++ m)) kw = false) →
      categorizeTransaction d m = "Other") := by
  refine ⟨fun d m => ?_, fun d m h => ?_, fun d m h => ?_⟩
  · rw [categorizeTransaction, specCategorize, categorizeLoop_eq_find?]
  · rw [categorizeTransaction]
    show categorizeLoop _ CATEGORY_RULES = _
    rw [show CATEGORY_RULES = CATEGORY_RULES.headI :: CATEGORY_RULES.tail from
      rfl]
    exact categorizeLoop_head _ _ _ "starbucks" (by simp [CATEGORY_RULES]) h
  · rw [categorizeTransaction]
    exact categorizeLoop_no_match _ CATEGORY_RULES h

/-- Witness for C9 at concrete inputs: `"Starbucks Coffee"` categorizes
to `"Dining"` whatever the merchant field says, and text matching no
keyword categorizes to `"Other"`. -/
theorem C9_categorizer_first_match_witness :
    categorizeTransaction "Starbucks Coffee" "Morning" = "Dining" ∧
    categorizeTransaction "zzz" "qqq" = "Other" :=
  ⟨C9_categorizer_first_match.2.1 "Starbucks Coffee" "Morning" (by decide),
   C9_categorizer_first_match.2.2 "zzz" "qqq" (by decide)⟩

/-- C7: `totalSpent` is the sum of all amounts, `avgSpendPerTxn` is
`totalSpent / count` (with the empty-report default 0 when the count is
0), and both groupings partition the total exactly: the `byCategory`
values and the `byMonth` values each sum to `totalSpent`. -/
theorem C7_totals_partition (ts : List Transaction) :
    (generateReport ts).totals.transactionCount = ts.length ∧
    (generateReport ts).totals.totalSpent = (ts.map (fun t => t.amount)).sum ∧
    (generateReport ts).totals.avgSpendPerTxn =
      (if ts.length = 0 then 0
        else (ts.map (fun t => t.amount)).sum / (ts.length : ℚ)) ∧
    sumValues (generateReport ts).byCategory =
      (generateReport ts).totals.totalSpent ∧
    sumValues (generateReport ts).byMonth =
      (generateReport ts).totals.totalSpent := by
  by_cases h : ts.length = 0
  · have hnil : ts = [] := List.length_eq_zero.mp h
    subst hnil
    simp [generateReport, emptyReport, sumValues]
  · rw [generateReport, if_neg h]
    refine ⟨rfl, totalSpentOf_eq ts, ?_, ?_, ?_⟩
    · rw [if_neg h, totalSpentOf_eq]
    · rw [sumValues_byCategoryOf, totalSpentOf_eq]
    · rw [sumValues_byMonthOf, totalSpentOf_eq]

/-- C5: the forecast is `null` iff fewer than 2 distinct months appear in
`byMonth` (whose keys are indeed distinct); otherwise it equals the
specification's formula — rounded average of the spend of the
chronologically-last up to 3 months (ascending month-key sort, tail
slice), confidence `"High"` iff at least 3 months, fixed method label. -/
theorem C5_forecast (ts : List Transaction) :
    ((generateReport ts).forecast = none ↔ (byMonthOf ts).length < 2) ∧
    (generateReport ts).forecast = specForecast (byMonthOf ts) ∧
    ((byMonthOf ts).map Prod.fst).Nodup := by
  have hspec : (generateReport ts).forecast = specForecast (byMonthOf ts) := by
    by_cases h : ts.length = 0
    · have hnil : ts = [] := List.length_eq_zero.mp h
      subst hnil
      rfl
    · rw [generateReport, if_neg h]
      exact forecastOf_eq_spec ts
  refine ⟨?_, hspec, nodup_keys_byMonthOf ts⟩
  rw [hspec, specForecast]
  by_cases h2 : (byMonthOf ts).length < 2
  · simp [h2]
  · simp [h2]

/-- C6: for a non-empty transaction list (with the data model's
non-negative amounts), the health score follows the specification's
formula — start 75, independent −15 / −10 penalties on the monthly
average, −10 Dining-concentration penalty, clamp to [0, 100], summary by
thresholds on the clamped score — and the score lies in [0, 100]. -/
theorem C6_health_score (ts : List Transaction) (hne : ts ≠ [])
    (hamt : ∀ t ∈ ts, 0 ≤ t.amount) :
    (generateReport ts).healthScore = specHealthScore ts ∧
    0 ≤ (generateReport ts).healthScore.score ∧
    (generateReport ts).healthScore.score ≤ 100 := by
  have hlen : ¬ ts.length = 0 := fun h => hne (List.length_eq_zero.mp h)
  have htot : 0 ≤ totalSpentOf ts := by
    rw [totalSpentOf_eq]
    refine List.sum_nonneg ?_
    intro x hx
    rcases List.mem_map.mp hx with ⟨t, ht, rfl⟩
    exact hamt t ht
  have hbounds := rawHealthScore_bounds ts htot
  have hclamp : max 0 (min 100 (rawHealthScore ts)) = rawHealthScore ts := by
    omega
  rw [generateReport, if_neg hlen]
  constructor
  · show healthScoreOf ts = specHealthScore ts
    rw [healthScoreOf, specHealthScore]
    simp only [HealthScore.mk.injEq]
    rw [← totalSpentOf_eq ts]
    constructor
    · rw [hclamp, rawHealthScore_eq ts htot]
      split_ifs <;> omega
    · have hsc : max 0 (min 100
          (75 -
            (if 3000 < totalSpentOf ts / ((byMonthOf ts).length : ℚ)
              then (15 : ℤ) else 0) -
            (if 5000 < totalSpentOf ts / ((byMonthOf ts).length : ℚ)
              then (10 : ℤ) else 0) -
            (if totalSpentOf ts * (3 / 10) < lookupQ (byCategoryOf ts) "Dining"
              then (10 : ℤ) else 0)))
          = rawHealthScore ts := by
        rw [rawHealthScore_eq ts htot]
        split_ifs <;> omega
      rw [hsc]
  · show 0 ≤ (healthScoreOf ts).score ∧ (healthScoreOf ts).score ≤ 100
    rw [healthScoreOf]
    constructor
    · exact le_max_left 0 _
    · simp only
      omega

/-- Witness for C6 at a concrete one-transaction list. -/
theorem C6_health_score_witness :
    (generateReport [⟨"2024-01-01", "A", (10 : ℚ), "Other", none⟩]).healthScore
        = specHealthScore [⟨"2024-01-01", "A", (10 : ℚ), "Other", none⟩] ∧
    0 ≤ (generateReport
      [⟨"2024-01-01", "A", (10 : ℚ), "Other", none⟩]).healthScore.score ∧
    (generateReport
      [⟨"2024-01-01", "A", (10 : ℚ), "Other", none⟩]).healthScore.score ≤ 100 :=
  C6_health_score [⟨"2024-01-01", "A", (10 : ℚ), "Other", none⟩]
    (by simp)
    (by
      intro t ht
      rw [List.mem_singleton] at ht
      subst ht
      norm_num)

/-! ### Remaining support lemmas for the parser claims -/

theorem collectRows_all_skipped :
    ∀ (rows : List (Option (Option Transaction))),
    (∀ r ∈ rows, r = some none) → collectRows rows = some []
  | [], _ => rfl
  | r :: rest, h => by
    have hr : r = some none := h r (List.mem_cons_self _ _)
    subst hr
    exact collectRows_all_skipped rest (fun r hr => h r (List.mem_cons_of_mem _ hr))

theorem collectRows_rows_some :
    ∀ (rows : List (Option (Option Transaction))) (ts : List Transaction),
    collectRows rows = some ts → ∀ r ∈ rows, ∃ o, r = some o
  | [], _, _, r, hr => by simp at hr
  | none :: rest, ts, h, r, hr => by
    rw [collectRows] at h
    cases h
  | some o0 :: rest, ts, h, r, hr => by
    rcases List.mem_cons.mp hr with heq | hmem
    · exact ⟨o0, heq⟩
    · cases o0 with
      | none =>
        rw [collectRows] at h
        exact collectRows_rows_some rest ts h r hmem
      | some t0 =>
        rw [collectRows] at h
        cases hrest : collectRows rest with
        | none => rw [hrest] at h; cases h
        | some ts' => exact collectRows_rows_some rest ts' hrest r hmem

/-! ### Claim theorems for the parsers -/

/-- C1 counterexample: the delimited-text parser *can* raise.  On the
input `"date,amount\nfoo"` both role columns resolve (indices 0 and 1),
but the single data row has one cell, so `values[1]` is `undefined` and
`values[1].replace(...)` throws a TypeError that escapes to the caller
(modelled as `none`) — not an empty list. -/
theorem C1_csv_raises_counterexample :
    parseCSV "2099-12-31" "date,amount\nfoo" = none := by decide

/-- C1 amended: the unsupported-format parser returns an empty list
unconditionally (and the spreadsheet parser's body is wrapped in a
`catch` returning `[]`, so it is total by construction); the
delimited-text parser does not raise provided every data row has a cell
at the resolved amount column index. -/
theorem C1_parsers_no_raise_amended :
    (∀ b : ByteArray, parsePDF b = []) ∧
    (∀ today content,
      ((csvAmountIdx content).all fun ai =>
        ((csvLines content).drop 1).all fun line =>
          decide (ai < (csvCells line).length)) = true →
      (parseCSV today content).isSome) := by
  refine ⟨fun _ => rfl, fun today content h => ?_⟩
  simp only [parseCSV]
  by_cases hl : (csvLines content).length < 2
  · rw [if_pos hl]
    rfl
  · rw [if_neg hl]
    refine collectRows_isSome _ ?_
    intro r hr
    rcases List.mem_map.mp hr with ⟨line, hline, rfl⟩
    refine csvRow_isSome ?_
    intro di ai _ hai
    rw [hai, Option.all_some] at h
    exact of_decide_eq_true (List.all_eq_true.mp h line hline)

/-- Witness for C1's amended statement at concrete inputs. -/
theorem C1_parsers_no_raise_witness :
    parsePDF ByteArray.empty = [] ∧
    (parseCSV "2099-12-31" "date,amount\n2024-01-01,5").isSome :=
  ⟨C1_parsers_no_raise_amended.1 ByteArray.empty,
   C1_parsers_no_raise_amended.2 "2099-12-31" "date,amount\n2024-01-01,5"
     (by decide)⟩

/-- C2 counterexample: with header `"amount,date"` the date column
resolves to index 1, but the data row `"5.00"` has a single cell — no
date value is present for that row — yet the row is kept (with the
processing-date default) instead of being excluded. -/
theorem C2_kept_without_date_cell_counterexample :
    csvDateIdx "amount,date\n5.00" = some 1 ∧
    (csvCells "5.00").length = 1 ∧
    ((parseCSV "2099-12-31" "amount,date\n5.00").getD []).map (fun t => t.date)
      = ["2099-12-31"] := by decide

/-- C2 amended: in the delimited-text parser a row is kept iff both a
date-bearing and an amount-bearing column were resolved *from the
header* — per-row presence is not checked (a missing amount cell raises
instead of dropping, and a missing or empty date cell is defaulted); in
the spreadsheet parser a row is kept iff that row's own keys resolve both
roles. -/
theorem C2_row_exclusion_amended :
    (∀ today content,
      csvDateIdx content = none ∨ csvAmountIdx content = none →
      parseCSV today content = some []) ∧
    (∀ today content di ai ts, csvDateIdx content = some di →
      csvAmountIdx content = some ai → parseCSV today content = some ts →
      ts.length = (csvLines content).length - 1 ∨
        ((csvLines content).length < 2 ∧ ts = [])) ∧
    (∀ today rows, (parseExcel today rows).length =
      (rows.filter (fun r =>
        (excelDateKey r).isSome && (excelAmountKey r).isSome)).length) := by
  refine ⟨fun today content h => ?_, fun today content di ai ts hdi hai hp => ?_,
    fun today rows => parseExcel_length today rows⟩
  · simp only [parseCSV]
    by_cases hl : (csvLines content).length < 2
    · rw [if_pos hl]
    · rw [if_neg hl]
      refine collectRows_all_skipped _ ?_
      intro r hr
      rcases List.mem_map.mp hr with ⟨line, _, rfl⟩
      exact csvRow_skipped h
  · simp only [parseCSV] at hp
    by_cases hl : (csvLines content).length < 2
    · rw [if_pos hl] at hp
      cases hp
      exact Or.inr ⟨hl, rfl⟩
    · rw [if_neg hl] at hp
      refine Or.inl ?_
      have hall : ∀ r ∈ ((csvLines content).drop 1).map
          (csvRow today (csvDateIdx content) (csvMerchantIdx content)
            (csvAmountIdx content) (csvDescIdx content)),
          ∃ t, r = some (some t) := by
        intro r hr
        rcases List.mem_map.mp hr with ⟨line, _, rfl⟩
        rcases collectRows_rows_some _ ts hp _ hr with ⟨o, ho⟩
        rw [hdi, hai] at ho ⊢
        rcases csvRow_not_skipped ho with ⟨t, ht⟩
        exact ⟨t, by rw [ho, ht]⟩
      have := length_collectRows _ ts hp hall
      rw [this, List.length_map, List.length_drop]

/-- Witness for C2's amended statement at concrete inputs: a header with
no date-bearing column drops every row; with both columns resolved every
data row is kept (here 2 of 2, including one with an unparseable
amount); a spreadsheet row without an amount key is dropped while a
complete row is kept. -/
theorem C2_row_exclusion_witness :
    parseCSV "2099-12-31" "amount,foo\n1,2" = some [] ∧
    ((parseCSV "2099-12-31" "date,amount\n2024-01-01,5\nx,y").getD
      []).length = 2 ∧
    (parseExcel "2099-12-31"
      [[("Date", "d"), ("Amount", "5")], [("Foo", "1")]]).length = 1 := by
  refine ⟨C2_row_exclusion_amended.1 "2099-12-31" _ (Or.inl (by decide)),
    ?_, (C2_row_exclusion_amended.2.2 "2099-12-31" _).trans (by decide)⟩
  have h := C2_row_exclusion_amended.2.1 "2099-12-31"
    "date,amount\n2024-01-01,5\nx,y" 0 1
    ((parseCSV "2099-12-31" "date,amount\n2024-01-01,5\nx,y").getD [])
    (by decide) (by decide) rfl
  rcases h with h | h
  · rw [h]
    decide
  · exact absurd h.1 (by decide)

/-- C3: every kept row's amount goes through the shared pipeline
`jsAmount` — strip every character other than digits, dot and minus,
`parseFloat`, absolute value (sign discarded) — so amounts are always
non-negative; a failed numeric parse yields amount `0` with the
transaction retained, not dropped (shown on a full parse of an `"N/A"`
amount cell), and concrete values: `"N/A" ↦ 0`, `"-4.50" ↦ 4.5`,
`"$1,234.56" ↦ 1234.56`. -/
theorem C3_amount_pipeline :
    (∀ today content ts, parseCSV today content = some ts →
      ∀ t ∈ ts, 0 ≤ t.amount) ∧
    (∀ today rows, ∀ t ∈ parseExcel today rows, 0 ≤ t.amount) ∧
    (∀ today dIdx mIdx aIdx deIdx line t,
      csvRow today dIdx mIdx aIdx deIdx line = some (some t) →
      ∃ ai cell, aIdx = some ai ∧ (csvCells line)[ai]? = some cell ∧
        t.amount = jsAmount cell) ∧
    (∀ today row t, excelRow today row = some t →
      ∃ amountKey, excelAmountKey row = some amountKey ∧
        t.amount = jsAmount (rowGet row amountKey)) ∧
    (∀ today, parseCSV today "date,amount\n2024-01-01,N/A" = some
      [⟨"2024-01-01", "Unknown", jsAmount "N/A", "Other", some "Unknown"⟩]) ∧
    jsAmount "N/A" = 0 ∧
    jsAmount "-4.50" = 9 / 2 ∧
    jsAmount "$1,234.56" = 123456 / 100 := by
  have hcsv : ∀ today content ts, parseCSV today content = some ts →
      ∀ t ∈ ts, 0 ≤ t.amount := by
    intro today content ts hp t ht
    simp only [parseCSV] at hp
    by_cases hl : (csvLines content).length < 2
    · rw [if_pos hl] at hp
      cases hp
      simp at ht
    · rw [if_neg hl] at hp
      have hmem := mem_collectRows _ ts hp t ht
      rcases List.mem_map.mp hmem with ⟨line, _, hrow⟩
      rcases csvRow_kept hrow with ⟨_, _, cell, _, _, _, hteq⟩
      rw [hteq]
      exact jsAmount_nonneg cell
  refine ⟨hcsv, ?_, ?_, ?_, fun today => rfl, ?_, ?_, ?_⟩
  · intro today rows t ht
    rcases parseExcel_mem ht with ⟨r, _, hr⟩
    rcases excelRow_kept hr with ⟨_, amountKey, _, _, hteq⟩
    rw [hteq]
    exact jsAmount_nonneg _
  · intro today dIdx mIdx aIdx deIdx line t h
    rcases csvRow_kept h with ⟨di, ai, cell, _, hai, hcell, hteq⟩
    exact ⟨ai, cell, hai, hcell, by rw [hteq]⟩
  · intro today row t h
    rcases excelRow_kept h with ⟨dateKey, amountKey, _, hak, hteq⟩
    exact ⟨amountKey, hak, by rw [hteq]⟩
  · rw [jsAmount, show jsParseFloat (stripAmount "N/A") = none from by decide]
  · rw [jsAmount,
      show jsParseFloat (stripAmount "-4.50")
        = some (-(4 + (5 + (0 + 0) / 10) / 10 : ℚ)) from rfl]
    norm_num
  · rw [jsAmount,
      show jsParseFloat (stripAmount "$1,234.56")
        = some (1234 + (5 + (6 + 0) / 10) / 10 : ℚ) from rfl]
    norm_num

/-- Witness for C3: the `"N/A"`-amount transaction produced by the full
CSV parse has a non-negative amount, obtained through the claim's
general non-negativity statement. -/
theorem C3_amount_pipeline_witness :
    0 ≤ jsAmount "N/A" ∧ 0 ≤ jsAmount "-4.50" :=
  ⟨C3_amount_pipeline.1 "2099-12-31" "date,amount\n2024-01-01,N/A"
      [⟨"2024-01-01", "Unknown", jsAmount "N/A", "Other", some "Unknown"⟩]
      (C3_amount_pipeline.2.2.2.2.1 "2099-12-31")
      _ (List.mem_singleton.mpr rfl),
   C3_amount_pipeline.2.2.1 "2099-12-31" (some 0) none (some 1) none
      "2024-01-05,-4.50"
      ⟨"2024-01-05", "Unknown", jsAmount "-4.50", "Other", some "Unknown"⟩
      rfl |>.elim (fun ai h => by
        rcases h with ⟨cell, _, _, hamt⟩
        rw [show (⟨"2024-01-05", "Unknown", jsAmount "-4.50", "Other",
          some "Unknown"⟩ : Transaction).amount = jsAmount "-4.50" from rfl]
          at hamt
        rw [hamt]
        exact jsAmount_nonneg cell)⟩

/-- C4 counterexample: the parser stores the raw date cell verbatim.
From `"date,amount\nbanana,5"` the produced transaction's date is
`"banana"` — not canonicalized to `YYYY-MM-DD`, and (although `"banana"`
is not parseable as a date) not defaulted to the processing date
`"2099-12-31"` either. -/
theorem C4_date_not_canonicalized_counterexample :
    ((parseCSV "2099-12-31" "date,amount\nbanana,5").getD []).map
      (fun t => t.date) = ["banana"] ∧
    isYYYYMMDD "banana" = false ∧
    isYYYYMMDD "2099-12-31" = true := by decide

/-- C4 amended: a produced transaction's date is the verbatim source
cell; only a missing or empty date cell falls back to the current
processing date; no canonicalization to `YYYY-MM-DD` is performed. -/
theorem C4_date_verbatim_amended :
    (∀ today dIdx mIdx aIdx deIdx line t,
      csvRow today dIdx mIdx aIdx deIdx line = some (some t) →
      ∃ di, dIdx = some di ∧
        t.date = jsIndexOr (csvCells line) (some di) today) ∧
    (∀ today row t, excelRow today row = some t →
      ∃ dateKey, excelDateKey row = some dateKey ∧
        t.date = jsOr (rowGet row dateKey) today) ∧
    (∀ today, parseCSV today "date,amount\nbanana,5" = some
      [⟨"banana", "Unknown", jsAmount "5", "Other", some "Unknown"⟩]) ∧
    (∀ today, parseCSV today "date,amount\n,5" = some
      [⟨today, "Unknown", jsAmount "5", "Other", some "Unknown"⟩]) := by
  refine ⟨?_, ?_, fun today => rfl, fun today => rfl⟩
  · intro today dIdx mIdx aIdx deIdx line t h
    rcases csvRow_kept h with ⟨di, ai, cell, hdi, _, _, hteq⟩
    exact ⟨di, hdi, by rw [hteq]⟩
  · intro today row t h
    rcases excelRow_kept h with ⟨dateKey, amountKey, hdk, _, hteq⟩
    exact ⟨dateKey, hdk, by rw [hteq]⟩

/-- Witness for C4's amended statement: the verbatim date of a concrete
kept CSV row, via the general statement. -/
theorem C4_date_verbatim_witness :
    ∃ di, (some 0 : Option Nat) = some di ∧
      (⟨"banana", "Unknown", jsAmount "5", "Other",
        some "Unknown"⟩ : Transaction).date
        = jsIndexOr (csvCells "banana,5") (some di) "2099-12-31" :=
  C4_date_verbatim_amended.1 "2099-12-31" (some 0) none (some 1) none
    "banana,5"
    ⟨"banana", "Unknown", jsAmount "5", "Other", some "Unknown"⟩ rfl

/-- C8 counterexample: tie order follows JS object enumeration, not
first-seen order.  Merchants named `"2"` then `"1"` (equal spend 5) come
back as `["1", "2"]`: canonical array-index keys enumerate in ascending
numeric order before the stable sort sees them, so the tie does *not*
retain the order the merchants were first encountered (`["2", "1"]`). -/
theorem C8_integer_merchant_tie_counterexample :
    ((generateReport [⟨"2024-01-01", "2", (5 : ℚ), "Other", none⟩,
        ⟨"2024-01-01", "1", (5 : ℚ), "Other", none⟩]).topMerchants).map
      (fun e => e.merchant) = ["1", "2"] ∧
    ([⟨"2024-01-01", "2", (5 : ℚ), "Other", none⟩,
      ⟨"2024-01-01", "1", (5 : ℚ), "Other", none⟩] : List Transaction).map
        (fun t => t.merchant) = ["2", "1"] := by decide

/-- C8 amended: `topMerchants` is sorted non-increasing by `spent` and
has length at most 10; the sort is stable, and ties retain first-seen
order *provided* no merchant name is a canonical array-index string
(otherwise JS object enumeration reorders them first, ascending
numerically).  The `"__proto__"` exclusion accounts for the ECMAScript
prototype-setter pathology of plain-object dictionaries, which the
association-list model does not otherwise capture. -/
theorem C8_top_merchants_amended (ts : List Transaction) :
    ((generateReport ts).topMerchants).Pairwise
      (fun a b => b.spent ≤ a.spent) ∧
    (generateReport ts).topMerchants.length ≤ 10 ∧
    ((∀ t ∈ ts, isArrayIndexKey t.merchant = false ∧
        t.merchant ≠ "__proto__") →
      ((generateReport ts).topMerchants).Pairwise
        (fun a b => a.spent = b.spent →
          firstSeenPos ts a.merchant < firstSeenPos ts b.merchant)) := by
  have htot : ∀ a b : MerchantTotal, ¬ merLeB a b = true → merLeB b a = true := by
    intro a b hab
    simp only [merLeB, decide_eq_true_eq] at *
    exact le_of_not_le hab
  have htrans : ∀ a b c : MerchantTotal,
      merLeB a b = true → merLeB b c = true → merLeB a c = true := by
    intro a b c h1 h2
    simp only [merLeB, decide_eq_true_eq] at *
    exact le_trans h2 h1
  by_cases h : ts.length = 0
  · rw [generateReport, if_pos h]
    exact ⟨List.Pairwise.nil, by simp [emptyReport],
      fun _ => List.Pairwise.nil⟩
  · rw [generateReport, if_neg h]
    refine ⟨?_, ?_, ?_⟩
    · show (topMerchantsOf ts).Pairwise _
      rw [topMerchantsOf]
      refine List.Pairwise.sublist (List.take_sublist _ _) ?_
      exact (pairwise_sortOrd merLeB htot htrans _).imp
        (fun hab => of_decide_eq_true hab)
    · show (topMerchantsOf ts).length ≤ 10
      rw [topMerchantsOf]
      exact List.length_take_le _ _
    · intro hA
      show (topMerchantsOf ts).Pairwise _
      rw [topMerchantsOf]
      refine List.Pairwise.sublist (List.take_sublist _ _) ?_
      have hent : jsEntries (merchantMapOf ts) = merchantMapOf ts := by
        refine jsEntries_eq_self _ ?_
        intro kv hkv
        have hk : kv.1 ∈ (merchantMapOf ts).map Prod.fst :=
          List.mem_map_of_mem Prod.fst hkv
        rcases List.any_eq_true.mp ((mem_keys_merchantMapOf ts kv.1).mp hk)
          with ⟨t, ht, htm⟩
        exact (of_decide_eq_true htm) ▸ (hA t ht).1
      rw [hent]
      refine pairwise_sortOrd_tie _ _ ?_
      have h1 : (merchantMapOf ts).Pairwise
          (fun kv kv' : String × ℚ × Nat =>
            firstSeenPos ts kv.1 < firstSeenPos ts kv'.1) :=
        (@List.pairwise_map (String × ℚ × Nat) String Prod.fst
          (fun a b => firstSeenPos ts a < firstSeenPos ts b)
          (merchantMapOf ts)).mp (pairwise_firstSeen_merchantMap ts)
      exact (@List.pairwise_map (String × ℚ × Nat) MerchantTotal
        (fun kv => ⟨kv.1, kv.2.1, kv.2.2⟩)
        (fun a b => firstSeenPos ts a.merchant < firstSeenPos ts b.merchant)
        (merchantMapOf ts)).mpr h1

/-- Witness for C8's amended statement at a concrete two-merchant list
with non-array-index names. -/
theorem C8_top_merchants_witness :
    ((generateReport [⟨"2024-01-01", "alpha", (5 : ℚ), "Other", none⟩,
        ⟨"2024-01-02", "beta", (5 : ℚ), "Other", none⟩]).topMerchants).Pairwise
      (fun a b => b.spent ≤ a.spent) ∧
    (generateReport [⟨"2024-01-01", "alpha", (5 : ℚ), "Other", none⟩,
      ⟨"2024-01-02", "beta", (5 : ℚ), "Other", none⟩]).topMerchants.length
        ≤ 10 ∧
    ((generateReport [⟨"2024-01-01", "alpha", (5 : ℚ), "Other", none⟩,
        ⟨"2024-01-02", "beta", (5 : ℚ), "Other", none⟩]).topMerchants).Pairwise
      (fun a b => a.spent = b.spent →
        firstSeenPos [⟨"2024-01-01", "alpha", (5 : ℚ), "Other", none⟩,
          ⟨"2024-01-02", "beta", (5 : ℚ), "Other", none⟩] a.merchant <
        firstSeenPos [⟨"2024-01-01", "alpha", (5 : ℚ), "Other", none⟩,
          ⟨"2024-01-02", "beta", (5 : ℚ), "Other", none⟩] b.merchant) := by
  have h := C8_top_merchants_amended
    [⟨"2024-01-01", "alpha", (5 : ℚ), "Other", none⟩,
     ⟨"2024-01-02", "beta", (5 : ℚ), "Other", none⟩]
  exact ⟨h.1, h.2.1, h.2.2 (by decide)⟩

/-- C10: `generateReport` never mutates its input.  With the
`transactions` array threaded through every array operation the source
applies to it (reduce, three forEach dictionary builds, the date map; the
two sorts act on freshly created arrays), the array handed back to the
caller is the input itself, unchanged in length, order and elements, and
the report computed along the way is exactly `generateReport`. -/
theorem C10_no_input_mutation (ts : List Transaction) :
    generateReportTracked ts = (generateReport ts, ts) := by
  by_cases h : ts.length = 0
  · rw [generateReportTracked, if_pos h, generateReport, if_pos h]
  · rw [generateReportTracked, if_neg h, generateReport, if_neg h]
    rfl
